import Mathlib

/-!
Shallow embedding of `agreement.py`: inter-annotator agreement metrics
(Pk, WindowDiff, pairwise aggregation, pairwise Cohen's kappa).

Python floats are modelled exactly by `ℚ` (every arithmetic operation the
code performs on scores is a ratio of small integers), Python exceptions by
an explicit `Except PyError` return value, and Python lists by `List`.
-/

set_option autoImplicit false

/-- The Python exceptions the module can raise: `ValueError` with its message,
`ZeroDivisionError`, and a float NaN outcome (which Python propagates as a
value, modelled here as an error outcome). -/
inductive PyError : Type
  | valueError : String → PyError
  | zeroDivisionError : PyError
  | nanValue : PyError
deriving DecidableEq, Repr

/-- Python slice `s[i : i+k]` (out-of-range ends are truncated, as in Python). -/
def window {α : Type} (s : List α) (i k : Nat) : List α :=
  (s.drop i).take k

/-- Python `s.count(b)`: number of occurrences of `b` in the list `s`. -/
def countB {α : Type} [DecidableEq α] (s : List α) (b : α) : Nat :=
  (s.filter (fun x => decide (x = b))).length

/-- Python 2 `round` (round half away from zero), yielding an integer; the
code's subsequent `int(...)` is the identity on an already-integral value. -/
def pythonRound (q : ℚ) : ℤ :=
  if 0 ≤ q then ⌊q + 1 / 2⌋ else ⌈q - 1 / 2⌉

/-- Python `ref[i:i+k].count(boundary) > 0`: the window starting at `i`
contains the boundary symbol. -/
def hasBoundary {α : Type} [DecidableEq α] (s : List α) (i k : Nat) (b : α) : Bool :=
  decide (0 < countB (window s i k) b)

/-- `pk(ref, hyp, k, boundary)` from `agreement.py`.

`k = none` models Python's `k=None` default, in which case
`k = int(round(len(ref) / (ref.count(boundary) * 2.)))`; a reference with no
boundary symbol makes that a `ZeroDivisionError`.  The main loop runs over
`xrange(len(ref)-k+1)` (empty when the bound is `≤ 0`) and the final division
by `len(ref)-k+1.` raises `ZeroDivisionError` exactly when that quantity is
zero. -/
def pk {α : Type} [DecidableEq α] (ref hyp : List α) (k? : Option Nat) (boundary : α) :
    Except PyError ℚ :=
  let kE : Except PyError Nat :=
    match k? with
    | some k => Except.ok k
    | none =>
        if countB ref boundary = 0 then Except.error PyError.zeroDivisionError
        else Except.ok (pythonRound ((ref.length : ℚ) / ((countB ref boundary : ℚ) * 2))).toNat
  match kE with
  | Except.error e => Except.error e
  | Except.ok k =>
      let n : ℤ := (ref.length : ℤ) - (k : ℤ) + 1
      let err : Nat := ((List.range n.toNat).filter
        (fun i => hasBoundary ref i k boundary != hasBoundary hyp i k boundary)).length
      if n = 0 then Except.error PyError.zeroDivisionError
      else Except.ok ((err : ℚ) / (n : ℚ))

/-- The loop body of `windowdiff` at window position `i`:
`ndiff = abs(seg1[i:i+k].count(boundary) - seg2[i:i+k].count(boundary))`,
added raw when `weighted` and as `min(1, ndiff)` otherwise. -/
def wdTerm {α : Type} [DecidableEq α] (seg1 seg2 : List α) (k : Nat) (boundary : α)
    (weighted : Bool) (i : Nat) : Nat :=
  let ndiff : Nat := ((countB (window seg1 i k) boundary : ℤ) -
    (countB (window seg2 i k) boundary : ℤ)).natAbs
  if weighted then ndiff else min 1 ndiff

/-- `windowdiff(seg1, seg2, k, boundary, weighted)` from `agreement.py`:
checks the two explicit `ValueError` preconditions, then slides a width-`k`
window over `range(len(seg1) - k + 1)` accumulating `wdTerm`, and divides by
the number of window positions (which is `≥ 1` once `k ≤ len`). -/
def windowdiff {α : Type} [DecidableEq α] (seg1 seg2 : List α) (k : Nat) (boundary : α)
    (weighted : Bool) : Except PyError ℚ :=
  if seg1.length ≠ seg2.length then
    Except.error (PyError.valueError "Segmentations have unequal length")
  else if seg1.length < k then
    Except.error (PyError.valueError
      "Window width k should be smaller or equal than segmentation lengths")
  else
    let n : Nat := seg1.length - k + 1
    let wd : Nat := ((List.range n).map (wdTerm seg1 seg2 k boundary weighted)).sum
    Except.ok ((wd : ℚ) / (n : ℚ))

/-- numpy fancy-index assignment `vec[idxs] = 1.0` on a one-dimensional list:
each listed index is set to `1`.  (At the only call site every index is in
range, so `List.set`'s silent behaviour on out-of-range indices is never
exercised.) -/
def setIndices (v : List ℚ) (idxs : List Nat) : List ℚ :=
  idxs.foldl (fun acc j => acc.set j 1) v

/-- Row `i` of `bin_annotations`: `np.zeros(max_val+1)` followed by
`bin_annotations[i, annotation] = 1.0`. -/
def binEncode (maxVal : Nat) (ann : List Nat) : List ℚ :=
  setIndices (List.replicate (maxVal + 1) 0) ann

/-- Python `max` over a list of naturals (`ValueError` on an empty list is
left to the caller, hence `Option`). -/
def listMax : List Nat → Option Nat
  | [] => none
  | x :: xs => some (xs.foldl Nat.max x)

/-- `itertools.combinations(l, 2)`: all unordered pairs, first component
earlier in the list, in the generation order of `itertools`. -/
def combinations2 {α : Type} : List α → List (α × α)
  | [] => []
  | x :: xs => xs.map (fun y => (x, y)) ++ combinations2 xs

/-- The score-collection loop: `for a, b in combinations(...): scores.append(fn(a, b))`;
a Python exception raised by `fn` aborts the loop and propagates. -/
def collectScores (fn : List ℚ → List ℚ → Except PyError ℚ) :
    List (List ℚ × List ℚ) → Except PyError (List ℚ)
  | [] => Except.ok []
  | p :: rest =>
      match fn p.1 p.2 with
      | Except.error e => Except.error e
      | Except.ok s =>
          match collectScores fn rest with
          | Except.error e => Except.error e
          | Except.ok ss => Except.ok (s :: ss)

/-- `pairwise_evaluation(fn, *annotations)` from `agreement.py`:
global maximum value (`ValueError` if there are no values at all), binary
encoding of every annotation to length `max_val + 1`, the scoring function on
every 2-combination, and `sum(scores) / len(scores)` (a `ZeroDivisionError`
when there are no pairs). -/
def pairwise_evaluation (fn : List ℚ → List ℚ → Except PyError ℚ)
    (annotations : List (List Nat)) : Except PyError ℚ :=
  match listMax (annotations.flatMap id) with
  | none => Except.error (PyError.valueError "max() arg is an empty sequence")
  | some maxVal =>
      let encs := annotations.map (binEncode maxVal)
      match collectScores fn (combinations2 encs) with
      | Except.error e => Except.error e
      | Except.ok scores =>
          if scores.length = 0 then Except.error PyError.zeroDivisionError
          else Except.ok (scores.sum / (scores.length : ℚ))

/-- Cross-tabulation count: positions where the first vector holds `x` and the
second holds `y` (an entry of `sklearn.metrics.confusion_matrix` for 0/1
vectors, whose label set is `{0, 1}`). -/
def countPair (a b : List ℚ) (x y : ℚ) : Nat :=
  ((a.zip b).filter (fun p => decide (p.1 = x) && decide (p.2 = y))).length

/-- Modelled from the spec: the external `cohens_kappa(confusion_matrix(a, b)).kappa`
used by `pairwise_kappa` (statsmodels and sklearn are not part of this
repository).  For 0/1 vectors the confusion matrix is the 2x2 cross-tabulation
`countPair`, observed agreement is `po = (n00 + n11) / n`, chance agreement is
`pe = (row0·col0 + row1·col1) / n²` from the marginals, and the statistic is
`(po - pe) / (1 - pe)`; a degenerate marginal (`pe = 1`) yields NaN. -/
def cohens_kappa (a b : List ℚ) : Except PyError ℚ :=
  let n : Nat := (a.zip b).length
  if n = 0 then Except.error (PyError.valueError "empty input")
  else
    let n00 := countPair a b 0 0
    let n01 := countPair a b 0 1
    let n10 := countPair a b 1 0
    let n11 := countPair a b 1 1
    let po : ℚ := ((n00 + n11 : Nat) : ℚ) / (n : ℚ)
    let pe : ℚ := (((n00 + n01) * (n00 + n10) + (n10 + n11) * (n01 + n11) : Nat) : ℚ) /
      ((n : ℚ) * (n : ℚ))
    if pe = 1 then Except.error PyError.nanValue
    else Except.ok ((po - pe) / (1 - pe))

/-- `pairwise_kappa(annotations)` from `agreement.py`. -/
def pairwise_kappa (annotations : List (List Nat)) : Except PyError ℚ :=
  pairwise_evaluation cohens_kappa annotations

/-! ### Helper lemmas -/

theorem le_foldl_max (x : Nat) (xs : List Nat) : x ≤ xs.foldl Nat.max x := by
  induction xs generalizing x with
  | nil => exact Nat.le_refl x
  | cons a t ih => exact Nat.le_trans (Nat.le_max_left x a) (ih (Nat.max x a))

theorem foldl_max_le_of_mem {y : Nat} {xs : List Nat} (x : Nat) (hy : y ∈ xs) :
    y ≤ xs.foldl Nat.max x := by
  induction xs generalizing x with
  | nil => cases hy
  | cons a t ih =>
      rcases List.mem_cons.mp hy with h | h
      · subst h
        exact Nat.le_trans (Nat.le_max_right x y) (le_foldl_max _ t)
      · exact ih (Nat.max x a) h

theorem foldl_max_mem (x : Nat) (xs : List Nat) :
    xs.foldl Nat.max x = x ∨ xs.foldl Nat.max x ∈ xs := by
  induction xs generalizing x with
  | nil => exact Or.inl rfl
  | cons a t ih =>
      have hfold : (a :: t).foldl Nat.max x = t.foldl Nat.max (Nat.max x a) := rfl
      rcases ih (Nat.max x a) with h | h
      · rw [hfold, h]
        rcases Nat.le_total x a with hxa | hxa
        · exact Or.inr (by simp [Nat.max_eq_right hxa])
        · exact Or.inl (Nat.max_eq_left hxa)
      · rw [hfold]
        exact Or.inr (List.mem_cons_of_mem a h)

theorem listMax_eq_some_iff {l : List Nat} {m : Nat} :
    listMax l = some m ↔ m ∈ l ∧ ∀ x ∈ l, x ≤ m := by
  cases l with
  | nil => simp [listMax]
  | cons x xs =>
      constructor
      · intro h
        have hm : xs.foldl Nat.max x = m := by simpa [listMax] using h
        subst hm
        refine ⟨?_, ?_⟩
        · rcases foldl_max_mem x xs with h' | h'
          · rw [h']
            exact List.mem_cons_self x xs
          · exact List.mem_cons_of_mem x h'
        · intro y hy
          rcases List.mem_cons.mp hy with h' | h'
          · rw [h']
            exact le_foldl_max x xs
          · exact foldl_max_le_of_mem x h'
      · rintro ⟨hmem, hub⟩
        have h1 : xs.foldl Nat.max x ≤ m := by
          rcases foldl_max_mem x xs with h' | h'
          · rw [h']
            exact hub x (List.mem_cons_self x xs)
          · exact hub _ (List.mem_cons_of_mem x h')
        have h2 : m ≤ xs.foldl Nat.max x := by
          rcases List.mem_cons.mp hmem with h' | h'
          · rw [h']
            exact le_foldl_max x xs
          · exact foldl_max_le_of_mem x h'
        simp [listMax, Nat.le_antisymm h1 h2]

theorem listMax_eq_none_iff {l : List Nat} : listMax l = none ↔ l = [] := by
  cases l <;> simp [listMax]

theorem listMax_congr {l l' : List Nat} (h : ∀ x, x ∈ l ↔ x ∈ l') :
    listMax l = listMax l' := by
  cases hl : listMax l with
  | none =>
      have : l = [] := listMax_eq_none_iff.mp hl
      subst this
      have : l' = [] := by
        cases l' with
        | nil => rfl
        | cons y ys => exact absurd ((h y).mpr (List.mem_cons_self y ys)) (by simp)
      simp [this, listMax]
  | some m =>
      obtain ⟨hmem, hub⟩ := listMax_eq_some_iff.mp hl
      exact (listMax_eq_some_iff.mpr
        ⟨(h m).mp hmem, fun x hx => hub x ((h x).mpr hx)⟩).symm

theorem setIndices_length (v : List ℚ) (idxs : List Nat) :
    (setIndices v idxs).length = v.length := by
  induction idxs generalizing v with
  | nil => rfl
  | cons j t ih => simpa [setIndices, List.foldl_cons] using ih (v.set j 1)

theorem setIndices_getElem? (v : List ℚ) (idxs : List Nat) (p : Nat) :
    (setIndices v idxs)[p]? = if p ∈ idxs ∧ p < v.length then some 1 else v[p]? := by
  induction idxs generalizing v with
  | nil => simp [setIndices]
  | cons j t ih =>
      have hstep : setIndices v (j :: t) = setIndices (v.set j 1) t := rfl
      rw [hstep, ih (v.set j 1), List.length_set, List.getElem?_set]
      by_cases hpl : p < v.length
      · by_cases hpj : j = p
        · by_cases hpt : p ∈ t <;> simp [hpl, hpj, hpt, List.mem_cons]
        · by_cases hpt : p ∈ t <;>
            simp [hpl, hpj, hpt, List.mem_cons, Ne.symm hpj]
      · have hnone : v[p]? = none := List.getElem?_eq_none (Nat.le_of_not_lt hpl)
        by_cases hpj : j = p <;> by_cases hpt : p ∈ t <;>
          simp [hpl, hpj, hpt, List.mem_cons, hnone]

theorem binEncode_eq_map (m : Nat) (ann : List Nat) :
    binEncode m ann = (List.range (m + 1)).map (fun i => if i ∈ ann then (1 : ℚ) else 0) := by
  apply List.ext_getElem?
  intro p
  rw [binEncode, setIndices_getElem?]
  by_cases hp : p < m + 1
  · by_cases hpa : p ∈ ann
    · simp [hp, hpa, List.getElem?_map, List.getElem?_range hp, List.getElem?_replicate]
    · simp [hp, hpa, List.getElem?_map, List.getElem?_range hp, List.getElem?_replicate]
  · have h1 : (List.replicate (m + 1) (0 : ℚ))[p]? = none :=
      List.getElem?_eq_none (by simpa using Nat.le_of_not_lt hp)
    have h2 : (List.range (m + 1))[p]? = none :=
      List.getElem?_eq_none (by simpa using Nat.le_of_not_lt hp)
    simp [hp, h1, h2]

theorem combinations2_length {α : Type} (l : List α) :
    (combinations2 l).length = l.length.choose 2 := by
  induction l with
  | nil => rfl
  | cons x xs ih =>
      simp [combinations2, ih, Nat.choose_succ_succ, Nat.choose_one_right]

theorem collectScores_ok (g : List ℚ → List ℚ → ℚ) (ps : List (List ℚ × List ℚ)) :
    collectScores (fun a b => Except.ok (g a b)) ps =
      Except.ok (ps.map (fun p => g p.1 p.2)) := by
  induction ps with
  | nil => rfl
  | cons p t ih => simp [collectScores, ih]

theorem bne_comm_bool (a b : Bool) : (a != b) = (b != a) := by
  cases a <;> cases b <;> rfl

theorem pk_some_eq {α : Type} [DecidableEq α] (ref hyp : List α) (k : Nat) (b : α) :
    pk ref hyp (some k) b =
      (if ((ref.length : ℤ) - (k : ℤ) + 1) = 0 then Except.error PyError.zeroDivisionError
       else Except.ok
        (((((List.range ((ref.length : ℤ) - (k : ℤ) + 1).toNat).filter
          (fun i => hasBoundary ref i k b != hasBoundary hyp i k b)).length : Nat) : ℚ) /
          ((((ref.length : ℤ) - (k : ℤ) + 1) : ℤ) : ℚ))) := rfl

theorem pk_none_eq {α : Type} [DecidableEq α] (ref hyp : List α) (b : α) :
    pk ref hyp none b =
      (if countB ref b = 0 then Except.error PyError.zeroDivisionError
       else pk ref hyp
        (some (pythonRound ((ref.length : ℚ) / ((countB ref b : ℚ) * 2))).toNat) b) := by
  by_cases h : countB ref b = 0 <;> simp [pk, h]

theorem zip_self {α : Type} (l : List α) : l.zip l = l.map (fun x => (x, x)) := by
  induction l with
  | nil => rfl
  | cons x xs ih => simp [List.zip_cons_cons, ih]

theorem countPair_self_eq (v : List ℚ) (x : ℚ) :
    countPair v v x x = (v.filter (fun y => decide (y = x))).length := by
  rw [countPair, zip_self, List.filter_map]
  simp [Function.comp_def]

theorem countPair_self_ne (v : List ℚ) (x y : ℚ) (hxy : x ≠ y) :
    countPair v v x y = 0 := by
  rw [countPair, zip_self, List.filter_map]
  have : (v.filter ((fun p : ℚ × ℚ => decide (p.1 = x) && decide (p.2 = y)) ∘
      (fun z => (z, z)))) = [] := by
    rw [List.filter_eq_nil_iff]
    intro a _
    simp only [Function.comp_apply, Bool.and_eq_true, decide_eq_true_eq, not_and]
    intro h1 h2
    exact hxy (h1 ▸ h2 ▸ rfl)
  simp [this]

theorem length_filter_binary (v : List ℚ) (h : ∀ x ∈ v, x = 0 ∨ x = 1) :
    (v.filter (fun y => decide (y = 0))).length +
      (v.filter (fun y => decide (y = 1))).length = v.length := by
  induction v with
  | nil => rfl
  | cons x xs ih =>
      have hx := h x (List.mem_cons_self x xs)
      have ihx := ih (fun y hy => h y (List.mem_cons_of_mem x hy))
      rcases hx with hx | hx <;> subst hx <;>
        simp [List.filter_cons, ihx] <;> omega

/-! ### Claim theorems -/

/-- C4: `windowdiff` fails with the length-mismatch `ValueError` whenever
`seg1` and `seg2` have unequal lengths, fails with the width `ValueError`
when the lengths agree but `k` exceeds them, and in both cases no score is
returned; for equal-length inputs with `k ≤ length` neither error is raised
and a score is returned. -/
theorem windowdiff_error_handling {α : Type} [DecidableEq α] (seg1 seg2 : List α)
    (k : Nat) (b : α) (w : Bool) :
    (seg1.length ≠ seg2.length →
      windowdiff seg1 seg2 k b w =
        Except.error (PyError.valueError "Segmentations have unequal length")) ∧
    (seg1.length = seg2.length → seg1.length < k →
      windowdiff seg1 seg2 k b w =
        Except.error (PyError.valueError
          "Window width k should be smaller or equal than segmentation lengths")) ∧
    (seg1.length = seg2.length → k ≤ seg1.length →
      ∃ q, windowdiff seg1 seg2 k b w = Except.ok q) := by
  refine ⟨fun h => ?_, fun h hk => ?_, fun h hk => ?_⟩
  · simp only [windowdiff]
    rw [if_pos h]
  · simp only [windowdiff]
    rw [if_neg (by omega), if_pos hk]
  · exact ⟨_, by simp only [windowdiff]; rw [if_neg (by omega), if_neg (Nat.not_lt.mpr hk)]⟩

/-- C4 witness: the three branches at concrete inputs. -/
theorem windowdiff_error_handling_witness :
    windowdiff ([1, 0] : List Nat) [0] 1 1 false =
      Except.error (PyError.valueError "Segmentations have unequal length") ∧
    windowdiff ([1, 0] : List Nat) [0, 0] 3 1 false =
      Except.error (PyError.valueError
        "Window width k should be smaller or equal than segmentation lengths") ∧
    windowdiff ([1, 0] : List Nat) [0, 0] 2 1 false = Except.ok 1 :=
  ⟨(windowdiff_error_handling [1, 0] [0] 1 1 false).1 (by decide),
   (windowdiff_error_handling [1, 0] [0, 0] 3 1 false).2.1 rfl (by decide),
   by norm_num [windowdiff, wdTerm, window, countB, List.range_succ]⟩

/-- C5 counterexample: invoked with a single annotator sequence, the pairwise
aggregator fails with a `ZeroDivisionError` (the empty score list), not with
an explicit "at least two annotators required" precondition error as the
claim states. -/
theorem pairwise_single_annotator_counterexample :
    pairwise_evaluation (fun _ _ => Except.ok 0) [[0]] =
      Except.error PyError.zeroDivisionError ∧
    (Except.error PyError.zeroDivisionError : Except PyError ℚ) ≠
      Except.error (PyError.valueError "at least two annotators required") := by
  refine ⟨rfl, fun h => ?_⟩
  injection h with h'
  exact PyError.noConfusion h'

/-- C5 amended: when the pairwise aggregator is invoked with only one
annotator sequence (holding at least one value), it fails with a division by
zero on the empty score list; no explicit precondition error is raised. -/
theorem pairwise_single_annotator_div_zero (fn : List ℚ → List ℚ → Except PyError ℚ)
    (a : List Nat) (h : a ≠ []) :
    pairwise_evaluation fn [a] = Except.error PyError.zeroDivisionError := by
  cases a with
  | nil => exact absurd rfl h
  | cons x xs => simp [pairwise_evaluation, listMax, combinations2, collectScores]

/-- C5 witness for the amended theorem. -/
theorem pairwise_single_annotator_div_zero_witness :
    pairwise_evaluation (fun a b => Except.ok (a.sum + b.sum)) [[1, 2]] =
      Except.error PyError.zeroDivisionError :=
  pairwise_single_annotator_div_zero _ [1, 2] (by simp)

/-- C6 counterexample: on a reference of length 2 with window size `k = 2`
(`len(ref) == k`), `pk` does not divide by zero: it returns the score `0`. -/
theorem pk_len_eq_k_counterexample :
    ([0, 1] : List Nat).length = 2 ∧
    pk ([0, 1] : List Nat) [0, 1] (some 2) 1 = Except.ok 0 :=
  ⟨rfl, by norm_num [pk, hasBoundary, window, countB, List.range_succ]⟩

/-- C6 amended: with an explicit window size, `pk` divides by zero exactly
when `k = len(ref) + 1` (the number of window positions `len(ref) - k + 1`
is then zero, a case `pk` does not guard); in particular at `len(ref) == k`
there is exactly one window position and a score is returned. -/
theorem pk_div_zero_iff {α : Type} [DecidableEq α] (ref hyp : List α) (k : Nat) (b : α) :
    (pk ref hyp (some k) b = Except.error PyError.zeroDivisionError ↔
      k = ref.length + 1) ∧
    (∃ q, pk ref hyp (some ref.length) b = Except.ok q) := by
  constructor
  · constructor
    · intro hEq
      rw [pk_some_eq] at hEq
      by_cases h : ((ref.length : ℤ) - (k : ℤ) + 1) = 0
      · omega
      · rw [if_neg h] at hEq
        exact absurd hEq (by simp)
    · intro hk
      subst hk
      rw [pk_some_eq, if_pos (by push_cast; omega)]
  · rw [pk_some_eq ref hyp ref.length b, if_neg (by omega)]
    exact ⟨_, rfl⟩

/-- C7: when `pk` is called without an explicit window size, a reference with
no boundary symbol makes the default-`k` computation divide by zero, and
otherwise the call behaves as `pk` with the explicit window size
`round(len(ref) / (2 × count of boundary symbols in ref))`. -/
theorem pk_default_k_spec {α : Type} [DecidableEq α] (ref hyp : List α) (b : α) :
    (countB ref b = 0 → pk ref hyp none b = Except.error PyError.zeroDivisionError) ∧
    (countB ref b ≠ 0 → pk ref hyp none b =
      pk ref hyp (some (pythonRound ((ref.length : ℚ) / (2 * (countB ref b : ℚ)))).toNat) b) := by
  constructor
  · intro h
    rw [pk_none_eq, if_pos h]
  · intro h
    rw [pk_none_eq, if_neg h, mul_comm ((countB ref b : ℚ)) 2]

/-- C7 witness: the two branches at concrete inputs. -/
theorem pk_default_k_spec_witness :
    pk ([0, 0] : List Nat) [0, 0] none 1 = Except.error PyError.zeroDivisionError ∧
    pk ([1, 0] : List Nat) [0, 1] none 1 =
      pk ([1, 0] : List Nat) [0, 1]
        (some (pythonRound ((([1, 0] : List Nat).length : ℚ) /
          (2 * (countB ([1, 0] : List Nat) 1 : ℚ)))).toNat) 1 :=
  ⟨(pk_default_k_spec [0, 0] [0, 0] 1).1 rfl,
   (pk_default_k_spec [1, 0] [0, 1] 1).2 (by decide)⟩

/-- C3: for an explicit window size `0 < k < len(ref)`, `pk` returns the
number of window positions at which `ref`'s and `hyp`'s windows disagree on
containing a boundary symbol, divided by the `len(ref) - k + 1` window
positions; the result lies in `[0, 1]` and is `0` iff every window position
agreed on presence/absence of a boundary. -/
theorem pk_spec {α : Type} [DecidableEq α] (ref hyp : List α) (k : Nat) (b : α)
    (hk0 : 0 < k) (hk : k < ref.length) :
    pk ref hyp (some k) b =
      Except.ok ((((List.range (ref.length - k + 1)).filter
          (fun i => hasBoundary ref i k b != hasBoundary hyp i k b)).length : ℚ) /
        ((ref.length - k + 1 : ℕ) : ℚ)) ∧
    0 ≤ (((List.range (ref.length - k + 1)).filter
          (fun i => hasBoundary ref i k b != hasBoundary hyp i k b)).length : ℚ) /
        ((ref.length - k + 1 : ℕ) : ℚ) ∧
    (((List.range (ref.length - k + 1)).filter
          (fun i => hasBoundary ref i k b != hasBoundary hyp i k b)).length : ℚ) /
        ((ref.length - k + 1 : ℕ) : ℚ) ≤ 1 ∧
    ((((List.range (ref.length - k + 1)).filter
          (fun i => hasBoundary ref i k b != hasBoundary hyp i k b)).length : ℚ) /
        ((ref.length - k + 1 : ℕ) : ℚ) = 0 ↔
      ∀ i < ref.length - k + 1, hasBoundary ref i k b = hasBoundary hyp i k b) := by
  have hpos : 0 < ref.length - k + 1 := by omega
  have hcast : ((ref.length : ℤ) - (k : ℤ) + 1) = ((ref.length - k + 1 : ℕ) : ℤ) := by omega
  have hQpos : (0 : ℚ) < ((ref.length - k + 1 : ℕ) : ℚ) := by exact_mod_cast hpos
  have hfle : ((List.range (ref.length - k + 1)).filter
      (fun i => hasBoundary ref i k b != hasBoundary hyp i k b)).length ≤
      ref.length - k + 1 := by
    have := List.length_filter_le
      (fun i => hasBoundary ref i k b != hasBoundary hyp i k b)
      (List.range (ref.length - k + 1))
    simpa using this
  refine ⟨?_, by positivity, ?_, ?_⟩
  · rw [pk_some_eq ref hyp k b, hcast, if_neg (by exact_mod_cast hpos.ne')]
    simp
  · rw [div_le_one hQpos]
    exact_mod_cast hfle
  · rw [div_eq_zero_iff]
    simp only [hQpos.ne', or_false, Nat.cast_eq_zero, List.length_eq_zero,
      List.filter_eq_nil_iff, List.mem_range]
    constructor
    · intro h i hi
      have := h i hi
      simpa [bne_iff_ne] using this
    · intro h i hi
      simp [bne_iff_ne, h i hi]

/-- C3 witness: at a concrete input the score is `2/3`. -/
theorem pk_spec_witness :
    pk ([0, 1, 0, 0] : List Nat) [0, 0, 1, 0] (some 2) 1 = Except.ok (2 / 3) := by
  have h := (pk_spec ([0, 1, 0, 0] : List Nat) [0, 0, 1, 0] 2 1 (by decide) (by decide)).1
  rw [h]
  norm_num [hasBoundary, window, countB, List.range_succ]

/-- C2: for equal-length sequences and width `0 < k ≤ length`, `windowdiff`
returns the sum over the `len(seg1) - k + 1` window positions of the absolute
boundary-count difference (raw when weighted, else `min 1 _`) divided by the
number of window positions; the unweighted result lies in `[0, 1]`, while the
weighted result can exceed `1`. -/
theorem windowdiff_spec {α : Type} [DecidableEq α] (seg1 seg2 : List α) (k : Nat) (b : α)
    (hlen : seg1.length = seg2.length) (hk0 : 0 < k) (hk : k ≤ seg1.length) :
    (∀ w : Bool, windowdiff seg1 seg2 k b w =
      Except.ok ((((List.range (seg1.length - k + 1)).map (wdTerm seg1 seg2 k b w)).sum : ℚ) /
        ((seg1.length - k + 1 : ℕ) : ℚ))) ∧
    (0 ≤ (((List.range (seg1.length - k + 1)).map (wdTerm seg1 seg2 k b false)).sum : ℚ) /
        ((seg1.length - k + 1 : ℕ) : ℚ) ∧
      (((List.range (seg1.length - k + 1)).map (wdTerm seg1 seg2 k b false)).sum : ℚ) /
        ((seg1.length - k + 1 : ℕ) : ℚ) ≤ 1) ∧
    (windowdiff ([1, 1] : List Nat) [0, 0] 2 1 true = Except.ok 2 ∧ (1 : ℚ) < 2) := by
  have hQpos : (0 : ℚ) < ((seg1.length - k + 1 : ℕ) : ℚ) := by
    have : 0 < seg1.length - k + 1 := by omega
    exact_mod_cast this
  refine ⟨?_, ⟨by positivity, ?_⟩, ?_, by norm_num⟩
  · intro w
    simp only [windowdiff]
    rw [if_neg (by omega), if_neg (Nat.not_lt.mpr hk)]
  · rw [div_le_one hQpos]
    have hterm : ∀ x ∈ (List.range (seg1.length - k + 1)).map (wdTerm seg1 seg2 k b false),
        x ≤ 1 := by
      intro x hx
      obtain ⟨i, _, rfl⟩ := List.mem_map.mp hx
      simp [wdTerm]
    have hsum := List.sum_le_card_nsmul _ 1 hterm
    simp only [List.length_map, List.length_range, smul_eq_mul, mul_one] at hsum
    exact_mod_cast hsum
  · norm_num [windowdiff, wdTerm, window, countB, List.range_succ]

/-- C2 witness: at a concrete input the unweighted score is the window sum
over the number of window positions. -/
theorem windowdiff_spec_witness :
    windowdiff ([0, 1, 0] : List Nat) [0, 0, 1] 2 1 false =
      Except.ok ((((List.range (([0, 1, 0] : List Nat).length - 2 + 1)).map
        (wdTerm ([0, 1, 0] : List Nat) [0, 0, 1] 2 1 false)).sum : ℚ) /
        ((([0, 1, 0] : List Nat).length - 2 + 1 : ℕ) : ℚ)) :=
  (windowdiff_spec [0, 1, 0] [0, 0, 1] 2 1 rfl (by decide) (by decide)).1 false

/-- C8 counterexample: with the window size left unspecified, Pk is not
symmetric: the defaulted `k` is computed from the first argument only, so
swapping two valid equal-length segmentations changes the score
(`1/3` versus `1/4`). -/
theorem pk_default_k_asymmetric :
    ([1, 0, 0, 0] : List Nat).length = ([1, 1, 0, 0] : List Nat).length ∧
    pk ([1, 0, 0, 0] : List Nat) [1, 1, 0, 0] none 1 = Except.ok (1 / 3) ∧
    pk ([1, 1, 0, 0] : List Nat) [1, 0, 0, 0] none 1 = Except.ok (1 / 4) ∧
    pk ([1, 0, 0, 0] : List Nat) [1, 1, 0, 0] none 1 ≠
      pk ([1, 1, 0, 0] : List Nat) [1, 0, 0, 0] none 1 := by
  have e1 : pk ([1, 0, 0, 0] : List Nat) [1, 1, 0, 0] none 1 = Except.ok (1 / 3) := by
    norm_num [pk, pythonRound, hasBoundary, window, countB]
    norm_num [show Int.toNat 2 = 2 from rfl, show Int.toNat 3 = 3 from rfl, List.range_succ]
  have e2 : pk ([1, 1, 0, 0] : List Nat) [1, 0, 0, 0] none 1 = Except.ok (1 / 4) := by
    norm_num [pk, pythonRound, hasBoundary, window, countB]
    norm_num [show Int.toNat 1 = 1 from rfl, show Int.toNat 4 = 4 from rfl, List.range_succ]
  refine ⟨rfl, e1, e2, ?_⟩
  rw [e1, e2]
  intro hcontra
  injection hcontra with hval
  norm_num at hval

/-- C8 amended: Pk with an explicit window size is symmetric on equal-length
sequences, and WindowDiff is symmetric in its two sequence arguments; only
Pk's defaulted-window-size path is asymmetric. -/
theorem pk_windowdiff_symmetric {α : Type} [DecidableEq α] :
    (∀ (ref hyp : List α) (k : Nat) (b : α), ref.length = hyp.length →
      pk ref hyp (some k) b = pk hyp ref (some k) b) ∧
    (∀ (s1 s2 : List α) (k : Nat) (b : α) (w : Bool),
      windowdiff s1 s2 k b w = windowdiff s2 s1 k b w) := by
  constructor
  · intro ref hyp k b h
    rw [pk_some_eq, pk_some_eq, h]
    have hpred : (fun i => hasBoundary ref i k b != hasBoundary hyp i k b) =
        (fun i => hasBoundary hyp i k b != hasBoundary ref i k b) := by
      funext i
      exact bne_comm_bool _ _
    rw [hpred]
  · intro s1 s2 k b w
    by_cases h : s1.length = s2.length
    · have hterm : wdTerm s1 s2 k b w = wdTerm s2 s1 k b w := by
        funext i
        simp only [wdTerm]
        rw [← Int.natAbs_neg, neg_sub]
      simp [windowdiff, hterm, h]
    · have h2 : s2.length ≠ s1.length := fun hh => h hh.symm
      simp [windowdiff, h, h2]

/-- C8 witness for the amended theorem: both symmetry statements applied at
concrete inputs. -/
theorem pk_windowdiff_symmetric_witness :
    pk ([1, 0] : List Nat) [0, 1] (some 1) 1 = pk ([0, 1] : List Nat) [1, 0] (some 1) 1 ∧
    windowdiff ([1, 0] : List Nat) [0, 1] 1 1 false =
      windowdiff ([0, 1] : List Nat) [1, 0] 1 1 false :=
  ⟨(pk_windowdiff_symmetric (α := Nat)).1 [1, 0] [0, 1] 1 1 rfl,
   (pk_windowdiff_symmetric (α := Nat)).2 [1, 0] [0, 1] 1 1 false⟩

/-- C1: for `N ≥ 2` annotator sequences with at least one value, the pairwise
aggregator encodes every sequence into a binary indicator vector of shared
length `max + 1` (index `i` holds `1` iff `i` appears in the sequence),
invokes the scoring function on every unordered pair (`N choose 2` pairs),
and returns the arithmetic mean of the pairwise scores. -/
theorem pairwise_evaluation_spec (g : List ℚ → List ℚ → ℚ) (anns : List (List Nat))
    (hN : 2 ≤ anns.length) (m : Nat) (hm : listMax (anns.flatMap id) = some m) :
    (m ∈ anns.flatMap id ∧ ∀ x ∈ anns.flatMap id, x ≤ m) ∧
    (∀ ann ∈ anns, (binEncode m ann).length = m + 1 ∧
      ∀ i < m + 1, (binEncode m ann)[i]? = some (if i ∈ ann then (1 : ℚ) else 0)) ∧
    (combinations2 (anns.map (binEncode m))).length = anns.length.choose 2 ∧
    pairwise_evaluation (fun a b => Except.ok (g a b)) anns =
      Except.ok (((combinations2 (anns.map (binEncode m))).map (fun p => g p.1 p.2)).sum /
        ((anns.length.choose 2 : ℕ) : ℚ)) := by
  refine ⟨listMax_eq_some_iff.mp hm, ?_,
    by rw [combinations2_length, List.length_map], ?_⟩
  · intro ann hann
    rw [binEncode_eq_map]
    refine ⟨by simp, ?_⟩
    intro i hi
    simp [List.getElem?_map, List.getElem?_range hi]
  · have hchoose : 0 < anns.length.choose 2 := Nat.choose_pos hN
    have hlen : ((combinations2 (anns.map (binEncode m))).map (fun p => g p.1 p.2)).length
        = anns.length.choose 2 := by
      rw [List.length_map, combinations2_length, List.length_map]
    simp only [pairwise_evaluation, hm, collectScores_ok]
    rw [if_neg (by rw [hlen]; exact hchoose.ne'), hlen]

/-- C1 witness: two annotators, global maximum `1`, one pair, mean score. -/
theorem pairwise_evaluation_spec_witness :
    pairwise_evaluation (fun a b => Except.ok ((fun (x y : List ℚ) => x.sum + y.sum) a b))
      [[1, 0], [1]] = Except.ok 3 := by
  have h := (pairwise_evaluation_spec (fun x y => x.sum + y.sum) [[1, 0], [1]]
    (by decide) 1 rfl).2.2.2
  rw [h]
  norm_num [combinations2, binEncode, setIndices, List.set]

/-- The membership sets of the flattened annotation lists agree when each
annotator's sequence is replaced by one with the same membership set. -/
theorem forall₂_flatMap_mem {anns anns' : List (List Nat)}
    (h : List.Forall₂ (fun a a' => ∀ x : Nat, x ∈ a ↔ x ∈ a') anns anns') :
    ∀ x, x ∈ anns.flatMap id ↔ x ∈ anns'.flatMap id := by
  induction h with
  | nil => simp
  | cons hab htail ih =>
      intro x
      simp only [List.flatMap_cons, List.mem_append, id]
      exact or_congr (hab x) (ih x)

/-- The binary encoding depends on an annotation only through its set of
values. -/
theorem binEncode_congr (m : Nat) {a a' : List Nat} (h : ∀ x, x ∈ a ↔ x ∈ a') :
    binEncode m a = binEncode m a' := by
  rw [binEncode_eq_map, binEncode_eq_map]
  have hfun : (fun i => if i ∈ a then (1 : ℚ) else 0) =
      (fun i => if i ∈ a' then (1 : ℚ) else 0) := by
    funext i
    simp only [h i]
  rw [hfun]

theorem map_binEncode_congr {anns anns' : List (List Nat)}
    (h : List.Forall₂ (fun a a' => ∀ x : Nat, x ∈ a ↔ x ∈ a') anns anns') :
    ∀ m : Nat, anns.map (binEncode m) = anns'.map (binEncode m) := by
  intro m
  induction h with
  | nil => rfl
  | cons hab htail ih => simp [binEncode_congr m hab, ih]

/-- C10: the pairwise aggregator's result depends on each annotator's
sequence only through the set of values it contains: replacing every
annotator's sequence by one with the same membership set (e.g. a permutation
of it, or one with values duplicated) leaves the result unchanged, for every
scoring function. -/
theorem pairwise_evaluation_set_invariant (fn : List ℚ → List ℚ → Except PyError ℚ)
    (anns anns' : List (List Nat))
    (h : List.Forall₂ (fun a a' => ∀ x : Nat, x ∈ a ↔ x ∈ a') anns anns') :
    pairwise_evaluation fn anns = pairwise_evaluation fn anns' := by
  have hmax : listMax (anns.flatMap id) = listMax (anns'.flatMap id) :=
    listMax_congr (forall₂_flatMap_mem h)
  simp only [pairwise_evaluation, hmax, map_binEncode_congr h]

/-- C10 witness: permuting and duplicating values inside one annotator's
sequence leaves the aggregate score unchanged. -/
theorem pairwise_evaluation_set_invariant_witness :
    pairwise_evaluation (fun a b => Except.ok (a.sum + b.sum)) [[0, 2], [1]] =
      pairwise_evaluation (fun a b => Except.ok (a.sum + b.sum)) [[2, 0, 0], [1]] :=
  pairwise_evaluation_set_invariant _ [[0, 2], [1]] [[2, 0, 0], [1]]
    (List.Forall₂.cons
      (fun x => by
        simp only [List.mem_cons, List.not_mem_nil, or_false]
        tauto)
      (List.Forall₂.cons (fun x => Iff.rfl) List.Forall₂.nil))

/-- C9: pairwise Kappa applied to two identical binary indicator vectors
containing both 0s and 1s (non-degenerate marginals) returns exactly 1:
observed agreement is total and chance agreement is strictly below 1, so the
chance-corrected statistic is `(1 - pe) / (1 - pe) = 1`. -/
theorem cohens_kappa_identical (v : List ℚ) (hbin : ∀ x ∈ v, x = 0 ∨ x = 1)
    (h0 : (0 : ℚ) ∈ v) (h1 : (1 : ℚ) ∈ v) :
    cohens_kappa v v = Except.ok 1 := by
  have hzip : (v.zip v).length = v.length := by
    rw [List.length_zip, Nat.min_self]
  have hc0pos : 0 < (v.filter (fun y => decide (y = 0))).length :=
    List.length_pos_of_mem (List.mem_filter.mpr ⟨h0, by simp⟩)
  have hc1pos : 0 < (v.filter (fun y => decide (y = 1))).length :=
    List.length_pos_of_mem (List.mem_filter.mpr ⟨h1, by simp⟩)
  have hsum := length_filter_binary v hbin
  have hvpos : 0 < v.length := List.length_pos_of_mem h0
  have hvQ : (0 : ℚ) < (v.length : ℚ) := by exact_mod_cast hvpos
  simp only [cohens_kappa, countPair_self_eq, countPair_self_ne v 0 1 (by norm_num),
    countPair_self_ne v 1 0 (by norm_num), hzip, Nat.add_zero, Nat.zero_add]
  rw [if_neg hvpos.ne']
  have hlt : (v.filter (fun y => decide (y = 0))).length *
        (v.filter (fun y => decide (y = 0))).length +
      (v.filter (fun y => decide (y = 1))).length *
        (v.filter (fun y => decide (y = 1))).length < v.length * v.length := by
    rw [← hsum]
    nlinarith [Nat.mul_pos hc0pos hc1pos]
  have hpe_lt : ((((v.filter (fun y => decide (y = 0))).length *
        (v.filter (fun y => decide (y = 0))).length +
      (v.filter (fun y => decide (y = 1))).length *
        (v.filter (fun y => decide (y = 1))).length : ℕ) : ℚ) /
        ((v.length : ℚ) * (v.length : ℚ))) < 1 := by
    rw [div_lt_one (mul_pos hvQ hvQ)]
    exact_mod_cast hlt
  rw [if_neg hpe_lt.ne]
  have hpo : (((v.filter (fun y => decide (y = 0))).length +
      (v.filter (fun y => decide (y = 1))).length : ℕ) : ℚ) / (v.length : ℚ) = 1 := by
    rw [hsum]
    exact div_self hvQ.ne'
  rw [hpo, div_self (sub_ne_zero.mpr hpe_lt.ne')]

/-- C9 witness: the kappa statistic of `[0, 1]` against itself is 1. -/
theorem cohens_kappa_identical_witness :
    cohens_kappa [0, 1] [0, 1] = Except.ok 1 :=
  cohens_kappa_identical [0, 1] (by decide) (by decide) (by decide)
